import Mathlib

/-!
Shallow embedding of the scdl media acquisition-and-transcode pipeline
(`scdl/scdl.py`) and proofs about it.

Strings from the Python code are modelled as `List Char`; byte streams as
`List Nat`; machine integers as `Nat`/`Int`; the float comparison of the
size guard is carried out in `ℚ` (all values involved are exact), and the
float positions of the transcode progress loop in integer microseconds (an
order-preserving rescaling by `10^6` of the exact second values).
Filesystem state touched by an operation is passed in and returned
explicitly; `none` models a missing file.
-/

/-- Characters stripped by Python's `str.strip()` with no argument. -/
def isPyWhitespace (c : Char) : Bool :=
  c = ' ' || c = '\t' || c = '\n' || c = '\r' || c = '\x0b' || c = '\x0c'

/-- Python `str.strip()`: drop whitespace from both ends. -/
def pyStrip (s : List Char) : List Char :=
  List.dropWhile isPyWhitespace
    (List.reverse (List.dropWhile isPyWhitespace (List.reverse s)))

/-- Decimal digit characters of a natural number, as Python `str(n)` prints them. -/
def natToStr (n : Nat) : List Char :=
  Nat.toDigits 10 n

/-- Python `str(i)` for an integer `i`. -/
def intToStr (i : Int) : List Char :=
  if i < 0 then '-' :: natToStr i.natAbs else natToStr i.natAbs

/-- Python `int(s)`, restricted to the forms the program can meet: optional
surrounding whitespace, an optional sign, then a nonempty digit string.
Returns `none` where Python `int` raises `ValueError`. -/
def pyInt (s : List Char) : Option Int :=
  let t := pyStrip s
  match t with
  | '-' :: ds =>
    if ds ≠ [] ∧ ds.all Char.isDigit then
      some (-(ds.foldl (fun a c => 10 * a + (c.toNat - '0'.toNat)) 0 : Nat))
    else none
  | '+' :: ds =>
    if ds ≠ [] ∧ ds.all Char.isDigit then
      some ((ds.foldl (fun a c => 10 * a + (c.toNat - '0'.toNat)) 0 : Nat))
    else none
  | ds =>
    if ds ≠ [] ∧ ds.all Char.isDigit then
      some ((ds.foldl (fun a c => 10 * a + (c.toNat - '0'.toNat)) 0 : Nat))
    else none

/-!
SizeGuard (`get_transcoding_m3u8` / `_write_streaming_response_to_pipe`):

    min_size = kwargs.get("min_size") or 0
    max_size = kwargs.get("max_size") or math.inf  # max size of 0 treated as no max size
    if not min_size <= total <= max_size:
        raise SoundCloudException("File not within --min-size and --max-size bounds")

`none` models an absent kwarg; the Python `or` collapses both `None` and `0`
to the default.
-/

/-- Size guard check of `scdl.py`: `min_size <= total <= max_size` after the
`or`-defaulting of the two kwargs (`None`/`0` min becomes `0`; `None`/`0` max
becomes `math.inf`, i.e. no upper bound). -/
def sizeGuardAccepts (min_size max_size : Option Nat) (total : ℚ) : Bool :=
  let minEff : ℚ := ((match min_size with | none => 0 | some v => v : Nat) : ℚ)
  let maxOk : Bool :=
    match max_size with
    | none => true
    | some 0 => true
    | some v => decide (total ≤ (v : ℚ))
  decide (minEff ≤ total) && maxOk

/-- Exceptional control flow of the Python code: `SoundCloudException` is
caught at the per-track boundary of `download_track`; `sys.exit` raises
`SystemExit`, which is not an `Exception` subclass and therefore escapes
`except SoundCloudException`, ending the whole invocation. -/
inductive PyExit where
  | soundCloudException (msg : List Char)
  | systemExit (code : Int)
deriving DecidableEq

/-- Message raised by the size guard. -/
def sizeBoundMsg : List Char :=
  ("File not within --min-size and --max-size bounds").toList

/-- True exactly when `download_track`'s `except SoundCloudException` handler
catches the given exceptional exit, confining it to the current track. -/
def handledAtTrackBoundary : PyExit → Bool
  | .soundCloudException _ => true
  | .systemExit _ => false

/-- State of a sink (`pipe` argument of `_write_streaming_response_to_pipe`):
the bytes written to it so far and whether it has been flushed / closed. -/
structure Sink where
  data : List Nat
  flushed : Bool
  closed : Bool
deriving DecidableEq

/-- Result of one call to `_write_streaming_response_to_pipe`: the final sink
state plus the exceptional exit, if any. -/
structure CopyResult where
  sink : Sink
  error : Option PyExit
deriving DecidableEq

/-- Chunked copy loop of `_write_streaming_response_to_pipe`: iterate the
chunks delivered by `response.raw.read`, stopping at the first empty chunk
(`if not chunk: break`), counting received bytes and appending to the sink. -/
def copyChunks : List (List Nat) → Nat → List Nat → Nat × List Nat
  | [], received, data => (received, data)
  | c :: cs, received, data =>
    if c = [] then (received, data)
    else copyChunks cs (received + c.length) (data ++ c)

/-- Model of `_write_streaming_response_to_pipe`: `chunks` are the byte chunks
the network delivers before end-of-stream, `total_length` the declared
`content-length`. The size guard runs before any transfer; the sink is
flushed before the received-vs-declared check; `sys.exit(1)` models the
`connection closed prematurely` path; the sink is closed only when it is not
a caller-owned `io.BytesIO`. -/
def write_streaming_response_to_pipe (chunks : List (List Nat)) (total_length : Nat)
    (min_size max_size : Option Nat) (isInMemoryBuffer : Bool) (pipe : Sink) : CopyResult :=
  if ¬ sizeGuardAccepts min_size max_size (total_length : ℚ) then
    { sink := pipe, error := some (.soundCloudException sizeBoundMsg) }
  else
    let rd := copyChunks chunks 0 pipe.data
    let flushed : Sink := { data := rd.2, flushed := true, closed := pipe.closed }
    if rd.1 ≠ total_length then
      { sink := flushed, error := some (.systemExit 1) }
    else
      { sink := { flushed with closed := ¬ isInMemoryBuffer }, error := none }

/-!
TranscodeProcess progress parsing (`_re_encode_ffmpeg` / `_is_ffmpeg_progress_line`).
Diagnostic lines are read with `pipe.stderr.readline`, so each line keeps its
trailing newline; `line.split('=', maxsplit=1)` splits at the first `=` only.
-/

/-- Python `line.split('=', maxsplit=1)` on a `List Char` line; `acc` holds
the characters before the first `=`, in reverse. -/
def splitEqOnce : List Char → List Char → List (List Char)
  | [], acc => [acc.reverse]
  | c :: t, acc =>
    if c = '=' then [acc.reverse, t]
    else splitEqOnce t (c :: acc)

/-- Keys accepted by `_is_ffmpeg_progress_line`. -/
def ffmpegProgressKeys : List (List Char) :=
  [("progress").toList, ("speed").toList, ("drop_frames").toList,
   ("dup_frames").toList, ("out_time").toList, ("out_time_ms").toList,
   ("out_time_us").toList, ("total_size").toList, ("bitrate").toList]

/-- Model of `_is_ffmpeg_progress_line(parameters)`. -/
def is_ffmpeg_progress_line (parameters : List (List Char)) : Bool :=
  parameters.length = 2 && (parameters.headD [] ∈ ffmpegProgressKeys)

/-!
The Python loop computes `seconds = int(parameters[1]) / 1_000_000` and
`total_sec = track_duration_ms / 1000`, both exact decimal values. The model
measures positions in integer microseconds (the parsed `out_time_ms` value
itself; the duration bound becomes `track_duration_ms * 1000`). Multiplying
by the fixed positive factor `10^6` is order-preserving, so every clamping,
delta-sign and bound statement transfers verbatim between the two scales.
-/

/-- State threaded through the stderr-reading loop of `_re_encode_ffmpeg`:
`last_secs` (in microseconds), the ordered list of deltas passed to
`progress.update` (in microseconds), and the verbatim accumulated
`errors_output`. -/
structure ProgressState where
  last_secs : ℤ
  deltas : List ℤ
  errors_output : List Char
deriving DecidableEq

/-- Initial state of the stderr loop: `last_secs = 0`, nothing reported,
empty `errors_output`. -/
def initProgressState : ProgressState :=
  { last_secs := 0, deltas := [], errors_output := [] }

/-- Position parsed from an `out_time_ms` progress line's value part, in
microseconds: `int(parameters[1])`, with a `ValueError` giving `0`. -/
def outTimeMicros (value : List Char) : ℤ :=
  match pyInt value with
  | some n => n
  | none => 0

/-- Character list of the literal `'out_time_ms'` that
`line.startswith('out_time_ms')` tests. -/
def outTimeMsKey : List Char :=
  ("out_time_ms").toList

/-- One iteration of the `for line in iter(pipe.stderr.readline, '')` loop of
`_re_encode_ffmpeg`; `total_micros` is the track duration bound in
microseconds. -/
def processStderrLine (total_micros : ℤ) (st : ProgressState) (line : List Char) :
    ProgressState :=
  let parameters := splitEqOnce line []
  if ¬ is_ffmpeg_progress_line parameters then
    { st with errors_output := st.errors_output ++ line }
  else if ¬ (outTimeMsKey.isPrefixOf line) then
    st
  else
    let seconds := outTimeMicros (parameters.getD 1 [])
    let seconds := min seconds total_micros
    let changed := seconds - st.last_secs
    { last_secs := seconds, deltas := st.deltas ++ [changed],
      errors_output := st.errors_output }

/-- The whole stderr loop of `_re_encode_ffmpeg` over the list of lines the
engine emits on its diagnostic stream. -/
def processStderr (total_micros : ℤ) (lines : List (List Char)) : ProgressState :=
  lines.foldl (processStderrLine total_micros) initProgressState

/-- Track duration bound in microseconds: the Python `total_sec =
track_duration_ms / 1000`, rescaled by `10^6`. -/
def totalMicrosOf (track_duration_ms : Nat) : ℤ :=
  (track_duration_ms : ℤ) * 1000

/-- Exit side of `_re_encode_ffmpeg` after the three data paths finished:
a non-zero `pipe.returncode` raises `SoundCloudException(f'FFmpeg
error(returncode): errors_output')`, modelled as an error carrying the exit
code and the accumulated diagnostic text; otherwise the encoded buffer is
returned. `encoded` stands for the bytes the drain path collected from the
engine's output channel (or read back from the temporary file). -/
def re_encode_ffmpeg_exit (track_duration_ms : Nat) (stderrLines : List (List Char))
    (returncode : Int) (encoded : List Nat) : Except (Int × List Char) (List Nat) :=
  let st := processStderr (totalMicrosOf track_duration_ms) stderrLines
  if returncode ≠ 0 then .error (returncode, st.errors_output) else .ok encoded

/-!
ArchiveLedger sync (`sync` in `scdl.py`), after the ledger file has been
read into the integer list `old`; `new` is the list of playlist track ids.
-/

/-- Tracks to download: `set(new).difference(old)`. -/
def syncAdd (old new : List ℤ) : Finset ℤ :=
  new.toFinset \ old.toFinset

/-- Tracks to remove: `set(old).difference(new)`. -/
def syncRem (old new : List ℤ) : Finset ℤ :=
  old.toFinset \ new.toFinset

/-- Outcome of `sync`: `noChanges` models the `sys.exit(0)` at `"No changes
found"`, `nothingToDownload` the `sys.exit(0)` at `"No tracks to download"`;
both carry the ledger file contents as left on disk (rewritten only when
some track was removed). -/
inductive SyncOutcome where
  | noChanges
  | toDownload (tracks : List ℤ) (ledger : List ℤ)
  | nothingToDownload (ledger : List ℤ)
deriving DecidableEq

/-- Model of `sync` (set comparison, ledger rewrite and returned download
list; the per-file deletion attempts touch only audio files, not the
ledger). -/
def sync (old new : List ℤ) : SyncOutcome :=
  let add := syncAdd old new
  let rem := syncRem old new
  if add = ∅ ∧ rem = ∅ then .noChanges
  else
    let ledger := if rem ≠ ∅ then old.filter (fun i => i ∉ rem) else old
    if add ≠ ∅ then .toDownload (new.filter (fun i => i ∈ add)) ledger
    else .nothingToDownload ledger

/-- Ledger file contents after a `sync` call that got past the ledger read
(`none` for the `noChanges` early exit, which leaves the file untouched and
is modelled without carrying it). -/
def syncLedger : SyncOutcome → Option (List ℤ)
  | .noChanges => none
  | .toDownload _ ledger => some ledger
  | .nothingToDownload ledger => some ledger

/-!
Idempotence check (`already_downloaded` in `scdl.py`). Booleans mirror the
call's inputs: filesystem probes (`os.path.isfile(filename)`,
`os.path.isfile(filename[:-4] + ".flac")`), `can_convert(filename)`, the
configured-archive probe `in_download_archive(track, **kwargs)`, and the
caller options `flac`, `overwrite`, `c`, `remove`, `force_metadata`.
-/

/-- Result of `already_downloaded`: `.returnTrue` reports the track as
already downloaded, `.returnFalse` lets the download proceed,
`.exitInvocation` is the `sys.exit(1)` hard stop. -/
inductive AlreadyResult where
  | returnTrue
  | returnFalse
  | exitInvocation
deriving DecidableEq

/-- Model of `already_downloaded`, following its chain of reassignments of
the local `already_downloaded` flag and the final dispatch. -/
def already_downloaded (fileExists flacSiblingExists flac canConvert
    downloadArchive inArchive overwrite c remove force_metadata : Bool) :
    AlreadyResult :=
  let ad := false
  let ad := if fileExists then true else ad
  let ad := if flac && canConvert && flacSiblingExists then true else ad
  let ad := if downloadArchive && inArchive then true else ad
  let ad := if flac && canConvert && fileExists then false else ad
  let ad := if overwrite then false else ad
  if ad then
    if c || remove || force_metadata then .returnTrue else .exitInvocation
  else .returnFalse

/-- Effective already-downloaded state that survives `already_downloaded`'s
two clearing steps: one of the three existence conditions holds, the
re-conversion clear (`flac` mode with the convertible original still on
disk) does not fire, and `overwrite` was not requested. -/
def alreadyEffective (fileExists flacSiblingExists flac canConvert
    downloadArchive inArchive overwrite : Bool) : Bool :=
  (fileExists || (flac && canConvert && flacSiblingExists) ||
    (downloadArchive && inArchive)) &&
  !(flac && canConvert && fileExists) && !overwrite

/-!
Artwork acquisition (`_try_get_artwork` / `_add_metadata_to_stream`). The
network is a function from URL to `Option ArtResponse`; `none` models a
`requests.RequestException`.
-/

/-- HTTP response as `_try_get_artwork` inspects it: status code, optional
`Content-Type` header and body bytes. -/
structure ArtResponse where
  status : Nat
  contentType : Option (List Char)
  content : List Nat
deriving DecidableEq

/-- Fuel-driven body of `replaceAll`; the fuel (initialised to the string
length, enough since each step consumes at least one character for a
nonempty pattern) only makes the recursion structural. -/
def replaceAllAux (pat repl : List Char) : Nat → List Char → List Char
  | 0, s => s
  | _ + 1, [] => []
  | fuel + 1, c :: t =>
    if pat.isPrefixOf (c :: t) then repl ++ replaceAllAux pat repl fuel ((c :: t).drop pat.length)
    else c :: replaceAllAux pat repl fuel t

/-- Python `s.replace(pat, repl)` for a nonempty pattern: replace every
non-overlapping occurrence, left to right. -/
def replaceAll (pat repl s : List Char) : List Char :=
  replaceAllAux pat repl s.length s

/-- Model of `_try_get_artwork(url, size)`: rewrite the URL
(`url.replace("large", size)`), fetch it, and accept the response only on
status 200 with a lowercased content type of `image/png`, `image/jpeg` or
`image/jpg`. -/
def try_get_artwork (net : List Char → Option ArtResponse) (url size : List Char) :
    Option ArtResponse :=
  let newArtworkUrl := replaceAll ("large").toList size url
  match net newArtworkUrl with
  | none => none
  | some r =>
    if r.status ≠ 200 then none
    else
      let contentType := (r.contentType.getD []).map Char.toLower
      if ¬ (contentType = ("image/png").toList ∨ contentType = ("image/jpeg").toList ∨
            contentType = ("image/jpg").toList) then none
      else some r

/-- Artwork selection in `_add_metadata_to_stream`: the original-resolution
URL is attempted only when `original_art` was requested; whenever that left
nothing, the fixed `t500x500` resolution is attempted. -/
def get_artwork_response (net : List Char → Option ArtResponse)
    (original_art : Bool) (url : List Char) : Option ArtResponse :=
  let artwork_response : Option ArtResponse := none
  let artwork_response :=
    if original_art then try_get_artwork net url ("original").toList
    else artwork_response
  match artwork_response with
  | none => try_get_artwork net url ("t500x500").toList
  | some r => some r

/-- Artwork bytes stored in the assembled `MetadataInfo`:
`artwork_response.content if artwork_response else None`. -/
def metadata_artwork_jpeg (artwork_response : Option ArtResponse) : Option (List Nat) :=
  artwork_response.map (fun r => r.content)

/-!
Artist extraction in `_add_metadata_to_stream`. The Python code iterates a
set literal of five dash glyphs; set iteration order is unspecified, so the
model fixes the order in which the literal is written.
-/

/-- Python `pat in s` (substring test). -/
def containsSub (pat : List Char) : List Char → Bool
  | [] => pat.isPrefixOf []
  | c :: t => pat.isPrefixOf (c :: t) || containsSub pat t

/-- Python `s.split(pat, maxsplit=1)` for a pattern occurring in `s`: the
part before the first occurrence and the part after it. When the pattern
does not occur (a case the caller guards against), the whole string is
returned on the left. -/
def splitOnceOn (pat : List Char) : List Char → List Char × List Char
  | [] => ([], [])
  | c :: t =>
    if pat.isPrefixOf (c :: t) then ([], (c :: t).drop pat.length)
    else
      let p := splitOnceOn pat t
      (c :: p.1, p.2)

/-- Dash-like separator glyphs of `_add_metadata_to_stream`, in the order the
set literal is written: hyphen, minus sign, en dash, em dash, horizontal
bar, each padded with spaces. -/
def dashes : List (List Char) :=
  [(" - ").toList, (" − ").toList, (" – ").toList, (" — ").toList, (" ― ").toList]

/-- Artist/title extraction of `_add_metadata_to_stream` with
`extract_artist` enabled: the first dash glyph contained in the title splits
it at that glyph's first occurrence; both parts are stripped; no glyph
leaves the username and title unchanged. -/
def extract_artist (username title : List Char) : List Char × List Char :=
  match dashes.find? (fun dash => containsSub dash title) with
  | none => (username, title)
  | some dash =>
    let artist_title := splitOnceOn dash title
    (pyStrip artist_title.1, pyStrip artist_title.2)

/-!
Download archive (`in_download_archive` / `record_download_archive` and the
recording step of `download_track`). The ledger file is raw text, modelled
as `Option (List Char)` (`none` = the file does not exist).
-/

/-- Auxiliary accumulator pass for `pyLines`; `cur` holds the characters of
the current unfinished line, in reverse. -/
def pyLinesAux (cur : List Char) : List Char → List (List Char)
  | [] => if cur = [] then [] else [cur.reverse]
  | c :: t =>
    if c = '\n' then (cur.reverse ++ ['\n']) :: pyLinesAux [] t
    else pyLinesAux (c :: cur) t

/-- Python text-file iteration (`for line in file`): lines split after each
newline, each keeping its trailing newline, a final unterminated line
included, no phantom empty line at the end. -/
def pyLines (s : List Char) : List (List Char) :=
  pyLinesAux [] s

/-- Model of `in_download_archive` with an archive configured: the file is
opened with mode `a+` (created empty when missing), read from the start, and
a line whose stripped text equals `str(track.id)` yields `True`. Returns the
membership answer and the file state left on disk. -/
def in_download_archive (file : Option (List Char)) (trackId : ℤ) :
    Bool × Option (List Char) :=
  let content := file.getD []
  ((pyLines content).any (fun line => pyStrip line = intToStr trackId), some content)

/-- Model of `record_download_archive` with an archive configured: open with
mode `a` (created when missing) and append `f"{track.id}\n"`. -/
def record_download_archive (file : Option (List Char)) (trackId : ℤ) :
    List Char :=
  file.getD [] ++ intToStr trackId ++ ['\n']

/-- Ledger-recording step of `download_track`: once a filename was obtained,
`record_download_archive(track, **kwargs)` runs before the
already-downloaded check, so the entry is recorded whether or not the track
was already present (`is_already_downloaded` does not influence it). -/
def download_track_record (archiveConfigured : Bool) (file : Option (List Char))
    (trackId : ℤ) (is_already_downloaded : Bool) : Option (List Char) :=
  if archiveConfigured then some (record_download_archive file trackId) else file

/-- Number of ledger lines whose stripped text is `str(id)`. -/
def countId (content : List Char) (trackId : ℤ) : Nat :=
  (pyLines content).countP (fun line => pyStrip line = intToStr trackId)

/-!
Theorems. Claim identifiers refer to the specification's claim list.
-/

/-- C10: with a download archive configured, a membership check on a missing
ledger file returns false and leaves an empty ledger file behind (the `a+`
open creates it), and no membership check ever modifies or removes an
existing line: the file contents are returned unchanged. -/
theorem c10_in_download_archive_theorem :
    (∀ trackId : ℤ, in_download_archive none trackId = (false, some [])) ∧
    (∀ (content : List Char) (trackId : ℤ),
      (in_download_archive (some content) trackId).2 = some content) := by
  constructor
  · intro trackId; rfl
  · intro content trackId; rfl

/-- C4 counterexample: with the target file on disk and `overwrite` (one of
the four options the claim lists) requested, `already_downloaded` does not
report the track as already downloaded — it returns `False` and the track is
re-downloaded — contradicting the claim that any of the four options makes
the existing file be reported as already downloaded. -/
theorem c4_already_downloaded_counterexample :
    already_downloaded true false false false false false true false false false =
      .returnFalse ∧
    already_downloaded true false false false false false true false false false ≠
      .returnTrue := by
  decide

/-- C4 as amended: the already-downloaded condition (file exists, converted
sibling exists in conversion mode, or ID in a configured archive) is cleared
when `overwrite` was requested or when, in conversion mode, the convertible
original file itself exists. When the cleared condition still holds, the
invocation hard-stops unless `continue`, `remove` or `force-metadata` was
requested, in which case the file is reported as already downloaded without
aborting; when it does not hold, the track proceeds as a fresh download. -/
theorem c4_already_downloaded_amended :
    ∀ fileExists flacSiblingExists flac canConvert downloadArchive inArchive
      overwrite c remove force_metadata : Bool,
      (already_downloaded fileExists flacSiblingExists flac canConvert
          downloadArchive inArchive overwrite c remove force_metadata =
        .exitInvocation ↔
        (alreadyEffective fileExists flacSiblingExists flac canConvert
            downloadArchive inArchive overwrite = true ∧
          c = false ∧ remove = false ∧ force_metadata = false)) ∧
      (already_downloaded fileExists flacSiblingExists flac canConvert
          downloadArchive inArchive overwrite c remove force_metadata =
        .returnTrue ↔
        (alreadyEffective fileExists flacSiblingExists flac canConvert
            downloadArchive inArchive overwrite = true ∧
          (c || remove || force_metadata) = true)) ∧
      (already_downloaded fileExists flacSiblingExists flac canConvert
          downloadArchive inArchive overwrite c remove force_metadata =
        .returnFalse ↔
        alreadyEffective fileExists flacSiblingExists flac canConvert
            downloadArchive inArchive overwrite = false) := by
  decide

/-- C5: `sync` computes `toAdd = current − known` and `toRemove = known −
current` (on the claim's example `known = 1,2,3`, `current = 2,3,4` this is
`toAdd = 4`, `toRemove = 1`), `sync(S, S)` signals "no changes" rather than
an error, and when any removal occurred the ledger is rewritten to contain
exactly `known − toRemove`. -/
theorem c5_sync_theorem :
    (syncAdd [1, 2, 3] [2, 3, 4] = {4} ∧ syncRem [1, 2, 3] [2, 3, 4] = {1}) ∧
    (∀ s : List ℤ, sync s s = .noChanges) ∧
    (∀ old new : List ℤ, syncRem old new ≠ ∅ →
      ∃ ledger, syncLedger (sync old new) = some ledger ∧
        ∀ x : ℤ, x ∈ ledger ↔ (x ∈ old ∧ x ∉ syncRem old new)) := by
  refine ⟨by decide, ?_, ?_⟩
  · intro s
    simp [sync, syncAdd, syncRem]
  · intro old new hrem
    refine ⟨old.filter (fun i => i ∉ syncRem old new), ?_, ?_⟩
    · unfold sync
      rw [if_neg (by simp [hrem])]
      by_cases hadd : syncAdd old new = ∅ <;>
        simp [hadd, hrem, syncLedger]
    · intro x
      simp [List.mem_filter]

/-- C5 witness: the theorem applied to the claim's own example (the
general-ledger part instantiated at `known = 1,2,3`, `current = 2,3,4`, whose
`toRemove = 1` is nonempty). -/
theorem c5_sync_witness :
    sync ([1, 2, 3] : List ℤ) [1, 2, 3] = .noChanges ∧
    ∃ ledger, syncLedger (sync [1, 2, 3] [2, 3, 4]) = some ledger ∧
      ∀ x : ℤ, x ∈ ledger ↔ (x ∈ ([1, 2, 3] : List ℤ) ∧ x ∉ syncRem [1, 2, 3] [2, 3, 4]) :=
  ⟨c5_sync_theorem.2.1 [1, 2, 3], c5_sync_theorem.2.2 [1, 2, 3] [2, 3, 4] (by decide)⟩

/-- Closed form of the copy loop when every delivered chunk is nonempty: all
chunks are consumed, the received counter grows by the total chunk length and
the sink receives the concatenation in order. -/
theorem copyChunks_spec :
    ∀ (chunks : List (List Nat)) (received : Nat) (data : List Nat),
      (∀ c ∈ chunks, c ≠ []) →
      copyChunks chunks received data =
        (received + (chunks.map List.length).sum, data ++ chunks.flatten) := by
  intro chunks
  induction chunks with
  | nil => intro received data _; simp [copyChunks]
  | cons c cs ih =>
    intro received data h
    rw [copyChunks, if_neg (h c (by simp))]
    rw [ih _ _ (fun x hx => h x (by simp [hx]))]
    simp [Nat.add_assoc]

/-- C1 counterexample: a stream that delivers 1 byte of a declared 2 fails
through `sys.exit(1)` (`SystemExit`), which `download_track`'s
`except SoundCloudException` does not catch — the failure ends the whole
invocation, not only the current track as the claim states. -/
theorem c1_truncation_counterexample :
    (write_streaming_response_to_pipe [[1]] 2 none none true
        { data := [], flushed := false, closed := false }).error =
      some (.systemExit 1) ∧
    handledAtTrackBoundary (.systemExit 1) = false := by
  decide

/-- C1 as amended: for a copy with declared length `N` whose size check
passes, delivering exactly `N` bytes (in nonempty chunks) succeeds with the
sink holding exactly those bytes in order, flushed, and closed unless it is a
caller-owned in-memory buffer; delivering fewer bytes produces no success
result and terminates the whole invocation via `sys.exit(1)` (no internal
retry, the stream is read once) — rather than an error confined to the
current track. -/
theorem c1_stream_copy_amended :
    ∀ (chunks : List (List Nat)) (N : Nat) (mn mx : Option Nat)
      (isInMemoryBuffer : Bool) (pipe : Sink),
      (∀ c ∈ chunks, c ≠ []) →
      sizeGuardAccepts mn mx (N : ℚ) = true →
      pipe.closed = false →
      ((chunks.map List.length).sum = N →
        write_streaming_response_to_pipe chunks N mn mx isInMemoryBuffer pipe =
          { sink := { data := pipe.data ++ chunks.flatten, flushed := true,
                      closed := !isInMemoryBuffer },
            error := none }) ∧
      ((chunks.map List.length).sum < N →
        write_streaming_response_to_pipe chunks N mn mx isInMemoryBuffer pipe =
          { sink := { data := pipe.data ++ chunks.flatten, flushed := true,
                      closed := false },
            error := some (.systemExit 1) }) := by
  intro chunks N mn mx isInMemoryBuffer pipe hne hsz hopen
  unfold write_streaming_response_to_pipe
  rw [copyChunks_spec chunks 0 pipe.data hne]
  rw [if_neg (by simp [hsz])]
  constructor
  · intro hexact
    rw [if_neg (by simpa using hexact)]
    cases isInMemoryBuffer <;> simp [hexact]
  · intro hless
    rw [if_pos (by simpa using Nat.ne_of_lt hless)]
    simp [hopen]

/-- C1 witness: two nonempty chunks totalling the declared length 2, no
configured bounds, a file sink: the copy succeeds, the sink holds the bytes
in order, flushed and closed. -/
theorem c1_stream_copy_amended_witness :
    write_streaming_response_to_pipe [[5], [6]] 2 none none false
        { data := [], flushed := false, closed := false } =
      { sink := { data := [] ++ [[5], [6]].flatten, flushed := true, closed := !false },
        error := none } :=
  (c1_stream_copy_amended [[5], [6]] 2 none none false
    { data := [], flushed := false, closed := false }
    (by decide) (by decide) rfl).1 (by decide)

/-- C3 counterexample: a configured `max` of 0 is treated as "no maximum"
(the Python `or` replaces it with `math.inf`), so a declared length of 5 is
accepted although it exceeds the configured maximum — the claimed "accepts
iff `min ≤ L ≤ max`" fails for a present-but-zero max. -/
theorem c3_size_guard_counterexample :
    sizeGuardAccepts none (some 0) 5 = true ∧ ¬ ((5 : ℚ) ≤ ((0 : Nat) : ℚ)) := by
  constructor
  · decide
  · decide

/-- C3 as amended: the size check accepts a declared length `L` iff
`min ≤ L` and, when a nonzero max is configured, `L ≤ max` — an absent or
zero max means unbounded; and when it rejects, the copy fails with the
`SoundCloudException` size-bound message before any bytes are transferred
(the sink is returned untouched). -/
theorem c3_size_guard_amended :
    ∀ (mn mx : Option Nat) (L : ℚ) (chunks : List (List Nat)) (N : Nat)
      (isInMemoryBuffer : Bool) (pipe : Sink),
      (sizeGuardAccepts mn mx L = true ↔
        (((mn.getD 0 : Nat) : ℚ) ≤ L ∧
          (mx = none ∨ mx = some 0 ∨ ∃ v, mx = some v ∧ L ≤ (v : ℚ)))) ∧
      (sizeGuardAccepts mn mx (N : ℚ) = false →
        write_streaming_response_to_pipe chunks N mn mx isInMemoryBuffer pipe =
          { sink := pipe, error := some (.soundCloudException sizeBoundMsg) }) := by
  intro mn mx L chunks N isInMemoryBuffer pipe
  constructor
  · unfold sizeGuardAccepts
    cases mn with
    | none =>
      cases mx with
      | none => simp
      | some v =>
        cases v with
        | zero => simp
        | succ w =>
          simp only [Bool.and_eq_true, decide_eq_true_eq, Option.getD_none]
          constructor
          · rintro ⟨h1, h2⟩
            exact ⟨h1, Or.inr (Or.inr ⟨w + 1, rfl, h2⟩)⟩
          · rintro ⟨h1, h2⟩
            refine ⟨h1, ?_⟩
            rcases h2 with h | h | ⟨v', hv', hle⟩
            · exact absurd h (by simp)
            · exact absurd h (by simp)
            · rw [Option.some_inj] at hv'
              subst hv'
              exact hle
    | some m =>
      cases mx with
      | none => simp
      | some v =>
        cases v with
        | zero => simp
        | succ w =>
          simp only [Bool.and_eq_true, decide_eq_true_eq, Option.getD_some]
          constructor
          · rintro ⟨h1, h2⟩
            exact ⟨h1, Or.inr (Or.inr ⟨w + 1, rfl, h2⟩)⟩
          · rintro ⟨h1, h2⟩
            refine ⟨h1, ?_⟩
            rcases h2 with h | h | ⟨v', hv', hle⟩
            · exact absurd h (by simp)
            · exact absurd h (by simp)
            · rw [Option.some_inj] at hv'
              subst hv'
              exact hle
  · intro hrej
    unfold write_streaming_response_to_pipe
    rw [if_pos (by simp [hrej])]

/-- C3 witness: declared length 1 with a configured minimum of 3 is rejected
before any transfer: the sink comes back untouched and the size-bound
exception is raised. -/
theorem c3_size_guard_amended_witness :
    write_streaming_response_to_pipe [[9]] 1 (some 3) none true
        { data := [], flushed := false, closed := false } =
      { sink := { data := [], flushed := false, closed := false },
        error := some (.soundCloudException sizeBoundMsg) } :=
  (c3_size_guard_amended (some 3) none 1 [[9]] 1 true
    { data := [], flushed := false, closed := false }).2 (by decide)

/-- Concatenation, in order and verbatim, of the diagnostic lines that
`_is_ffmpeg_progress_line` classifies as non-progress. -/
def nonProgressText (lines : List (List Char)) : List Char :=
  (lines.filter (fun l => ¬ is_ffmpeg_progress_line (splitEqOnce l []))).flatten

/-- Clamped position (in microseconds) that a single diagnostic line
contributes to the progress loop: defined exactly for the lines that are
progress-shaped and start with `out_time_ms`. -/
def clampedPosition (total_micros : ℤ) (line : List Char) : Option ℤ :=
  let parameters := splitEqOnce line []
  if is_ffmpeg_progress_line parameters && outTimeMsKey.isPrefixOf line then
    some (min (outTimeMicros (parameters.getD 1 [])) total_micros)
  else none

/-- All clamped positions contributed by a line sequence, in order. -/
def clampedPositions (total_micros : ℤ) (lines : List (List Char)) : List ℤ :=
  lines.filterMap (clampedPosition total_micros)

/-- Successive differences of a position list, starting from `s`. -/
def deltasFrom (s : ℤ) : List ℤ → List ℤ
  | [] => []
  | p :: ps => (p - s) :: deltasFrom p ps

/-- Last element of a position list, or `s` when it is empty. -/
def lastFrom (s : ℤ) : List ℤ → ℤ
  | [] => s
  | p :: ps => lastFrom p ps

/-- Position list that never decreases, starting at `s`. -/
def nonDecreasingFrom (s : ℤ) : List ℤ → Bool
  | [] => true
  | p :: ps => decide (s ≤ p) && nonDecreasingFrom p ps

/-- Closed form of the stderr loop: starting from any state, the final
`last_secs` is the last clamped position (or the starting one), the reported
deltas are the successive differences of the clamped positions, and
`errors_output` grows by exactly the non-progress lines, verbatim and in
order. -/
theorem processStderr_structure (total_micros : ℤ) :
    ∀ (lines : List (List Char)) (st : ProgressState),
      lines.foldl (processStderrLine total_micros) st =
        { last_secs := lastFrom st.last_secs (clampedPositions total_micros lines),
          deltas := st.deltas ++ deltasFrom st.last_secs (clampedPositions total_micros lines),
          errors_output := st.errors_output ++ nonProgressText lines } := by
  intro lines
  induction lines with
  | nil =>
    intro st
    simp [clampedPositions, nonProgressText, lastFrom, deltasFrom]
  | cons l ls ih =>
    intro st
    rw [List.foldl_cons, ih]
    by_cases h1 : is_ffmpeg_progress_line (splitEqOnce l []) = true
    · by_cases h2 : outTimeMsKey.isPrefixOf l = true
      · simp [processStderrLine, clampedPositions, clampedPosition, nonProgressText,
              h1, h2, lastFrom, deltasFrom]
      · simp [processStderrLine, clampedPositions, clampedPosition, nonProgressText,
              h1, h2, lastFrom, deltasFrom]
    · simp [processStderrLine, clampedPositions, clampedPosition, nonProgressText,
            h1, lastFrom, deltasFrom]

/-- Sum of the successive differences telescopes to last minus first. -/
theorem deltasFrom_sum : ∀ (ps : List ℤ) (s : ℤ),
    (deltasFrom s ps).sum = lastFrom s ps - s := by
  intro ps
  induction ps with
  | nil => intro s; simp [deltasFrom, lastFrom]
  | cons p ps ih => intro s; simp [deltasFrom, lastFrom, ih p]

/-- The last position stays below any bound dominating the start and every
position. -/
theorem lastFrom_le : ∀ (ps : List ℤ) (s tm : ℤ),
    s ≤ tm → (∀ p ∈ ps, p ≤ tm) → lastFrom s ps ≤ tm := by
  intro ps
  induction ps with
  | nil => intro s tm hs _; exact hs
  | cons p ps ih =>
    intro s tm _ hp
    exact ih p tm (hp p (by simp)) (fun q hq => hp q (by simp [hq]))

/-- Every clamped position is at most the duration bound. -/
theorem clampedPositions_le (total_micros : ℤ) (lines : List (List Char)) :
    ∀ p ∈ clampedPositions total_micros lines, p ≤ total_micros := by
  intro p hp
  rw [clampedPositions, List.mem_filterMap] at hp
  obtain ⟨l, _, hcp⟩ := hp
  rw [clampedPosition] at hcp
  split at hcp
  · rw [Option.some_inj] at hcp
    subst hcp
    exact min_le_right _ _
  · exact absurd hcp (by simp)

/-- Differences of a non-decreasing position list are non-negative. -/
theorem deltasFrom_nonneg : ∀ (ps : List ℤ) (s : ℤ),
    nonDecreasingFrom s ps = true → ∀ d ∈ deltasFrom s ps, 0 ≤ d := by
  intro ps
  induction ps with
  | nil => intro s _ d hd; simp [deltasFrom] at hd
  | cons p ps ih =>
    intro s hmono d hd
    rw [nonDecreasingFrom, Bool.and_eq_true, decide_eq_true_eq] at hmono
    rw [deltasFrom, List.mem_cons] at hd
    rcases hd with rfl | hd
    · omega
    · exact ih p hmono.2 d hd

/-- C2 counterexample: for a 2000 ms track, an `out_time_ms=1000000` line
followed by one whose value is malformed (`out_time_ms=abc`, parsed as
position 0) makes the loop report the deltas `1000000` and `-1000000`
microseconds (i.e. `1.0` then `-1.0` seconds): a reported delta is negative,
so the cumulative reported position regresses, contradicting the claim. -/
theorem c2_progress_counterexample :
    (processStderr (totalMicrosOf 2000)
        [("out_time_ms=1000000\n").toList, ("out_time_ms=abc\n").toList]).deltas =
      [1000000, -1000000] ∧
    ¬ (∀ d ∈ (processStderr (totalMicrosOf 2000)
        [("out_time_ms=1000000\n").toList, ("out_time_ms=abc\n").toList]).deltas,
        0 ≤ d) := by
  constructor
  · decide
  · decide

/-- C2 as amended: each parsed position (a malformed value parsing as 0) is
clamped to the track duration; each reported delta is the difference between
the current and the previously reported clamped position — so the deltas are
all non-negative whenever the clamped position sequence never decreases from
0, though a regressing position (e.g. after a malformed value) yields a
negative delta — and the final reported cumulative position (the sum of all
reported deltas) never exceeds the track's known duration. -/
theorem c2_progress_amended :
    ∀ (duration_ms : Nat) (lines : List (List Char)),
      (processStderr (totalMicrosOf duration_ms) lines).deltas.sum =
        (processStderr (totalMicrosOf duration_ms) lines).last_secs ∧
      (processStderr (totalMicrosOf duration_ms) lines).last_secs ≤
        totalMicrosOf duration_ms ∧
      ((processStderr (totalMicrosOf duration_ms) lines).deltas =
        deltasFrom 0 (clampedPositions (totalMicrosOf duration_ms) lines)) ∧
      (nonDecreasingFrom 0 (clampedPositions (totalMicrosOf duration_ms) lines) = true →
        ∀ d ∈ (processStderr (totalMicrosOf duration_ms) lines).deltas, 0 ≤ d) := by
  intro duration_ms lines
  have h := processStderr_structure (totalMicrosOf duration_ms) lines initProgressState
  have htm : (0 : ℤ) ≤ totalMicrosOf duration_ms := by
    rw [totalMicrosOf]; positivity
  rw [processStderr, h]
  simp only [initProgressState, List.nil_append]
  refine ⟨?_, ?_, by trivial, ?_⟩
  · rw [deltasFrom_sum]; ring
  · exact lastFrom_le _ 0 _ htm (clampedPositions_le _ _)
  · intro hmono
    exact deltasFrom_nonneg _ 0 hmono

/-- C2 witness: the specification's own example — a 2000 ms track with
positions 500000 µs then 1500000 µs — has a non-decreasing clamped position
sequence, so every reported delta is non-negative. -/
theorem c2_progress_amended_witness :
    ∀ d ∈ (processStderr (totalMicrosOf 2000)
        [("out_time_ms=500000\n").toList, ("out_time_ms=1500000\n").toList]).deltas,
      0 ≤ d :=
  (c2_progress_amended 2000
    [("out_time_ms=500000\n").toList, ("out_time_ms=1500000\n").toList]).2.2.2
    (by decide)

/-- C6: whenever the engine exits non-zero, `_re_encode_ffmpeg` fails with
the error carrying that exit code and, verbatim and in order, exactly the
non-progress diagnostic lines; the accumulated output buffer is never
returned on this path; a zero exit code raises no such error and returns the
buffer. -/
theorem c6_transcode_error_theorem :
    ∀ (duration_ms : Nat) (stderrLines : List (List Char)) (returncode : Int)
      (encoded : List Nat),
      (returncode ≠ 0 →
        re_encode_ffmpeg_exit duration_ms stderrLines returncode encoded =
          .error (returncode, nonProgressText stderrLines) ∧
        ∀ out, re_encode_ffmpeg_exit duration_ms stderrLines returncode encoded ≠
          .ok out) ∧
      (returncode = 0 →
        re_encode_ffmpeg_exit duration_ms stderrLines returncode encoded =
          .ok encoded) := by
  intro duration_ms stderrLines returncode encoded
  have herr : (processStderr (totalMicrosOf duration_ms) stderrLines).errors_output =
      nonProgressText stderrLines := by
    rw [processStderr, processStderr_structure]
    simp [initProgressState]
  constructor
  · intro hrc
    rw [re_encode_ffmpeg_exit, if_pos hrc, herr]
    exact ⟨rfl, fun out => by simp⟩
  · intro hrc
    rw [re_encode_ffmpeg_exit, if_neg (by simp [hrc])]

/-- C6 witness: exit code 1 with one genuine diagnostic line and one progress
line fails carrying exactly the diagnostic line. -/
theorem c6_transcode_error_theorem_witness :
    re_encode_ffmpeg_exit 2000 [("boom\n").toList, ("speed=1x\n").toList] 1 [1, 2] =
      .error (1, nonProgressText [("boom\n").toList, ("speed=1x\n").toList]) :=
  ((c6_transcode_error_theorem 2000 [("boom\n").toList, ("speed=1x\n").toList]
    1 [1, 2]).1 (by decide)).1

/-- Network stub for the C7 counterexample: every URL answers with status
201 and content type `image/png`. -/
def c7net201 : List Char → Option ArtResponse :=
  fun _ => some { status := 201, contentType := some (("image/png").toList), content := [7] }

/-- Network stub for the C7 counterexample: every URL answers with status
200 and content type `image/jpg`. -/
def c7netJpg : List Char → Option ArtResponse :=
  fun _ => some { status := 200, contentType := some (("image/jpg").toList), content := [8] }

/-- C7 counterexample: a `201` response with content type `image/png` — a
2xx status with an accepted type per the claim — yields no artwork, because
the code compares the status against exactly `200`; and a `200` response
with content type `image/jpg` — neither `image/png` nor `image/jpeg` —
does yield artwork, because the code also accepts `image/jpg`. -/
theorem c7_artwork_counterexample :
    (try_get_artwork c7net201 (("large-art").toList) (("original").toList) = none ∧
      200 ≤ 201 ∧ 201 < 300) ∧
    (try_get_artwork c7netJpg (("large-art").toList) (("t500x500").toList) =
      some { status := 200, contentType := some (("image/jpg").toList), content := [8] } ∧
      ("image/jpg").toList ≠ ("image/png").toList ∧
      ("image/jpg").toList ≠ ("image/jpeg").toList) := by
  constructor
  · exact ⟨by decide, by decide, by decide⟩
  · exact ⟨by decide, by decide, by decide⟩

/-- C7 as amended: the original-resolution URL is attempted only when
original-art was requested, falling back to the fixed `t500x500` resolution
otherwise or when that attempt yields nothing; an attempt yields artwork only
when the response status is exactly 200 and the lowercased content type is
one of `image/png`, `image/jpeg`, `image/jpg`; and when both attempts yield
nothing the result is "no artwork" — the metadata record simply carries no
artwork bytes — not an error. -/
theorem c7_artwork_amended :
    ∀ (net : List Char → Option ArtResponse) (url : List Char),
      (get_artwork_response net false url =
        try_get_artwork net url (("t500x500").toList)) ∧
      (∀ r, try_get_artwork net url (("original").toList) = some r →
        get_artwork_response net true url = some r) ∧
      (try_get_artwork net url (("original").toList) = none →
        get_artwork_response net true url =
          try_get_artwork net url (("t500x500").toList)) ∧
      (∀ size r, try_get_artwork net url size = some r →
        r.status = 200 ∧
        (r.contentType.getD []).map Char.toLower ∈
          [("image/png").toList, ("image/jpeg").toList, ("image/jpg").toList]) ∧
      (try_get_artwork net url (("original").toList) = none ∧
        try_get_artwork net url (("t500x500").toList) = none →
        get_artwork_response net true url = none ∧
        metadata_artwork_jpeg (get_artwork_response net true url) = none) := by
  intro net url
  refine ⟨rfl, ?_, ?_, ?_, ?_⟩
  · intro r h
    have hdef : get_artwork_response net true url =
        match try_get_artwork net url (("original").toList) with
        | none => try_get_artwork net url (("t500x500").toList)
        | some r => some r := rfl
    rw [hdef, h]
  · intro h
    have hdef : get_artwork_response net true url =
        match try_get_artwork net url (("original").toList) with
        | none => try_get_artwork net url (("t500x500").toList)
        | some r => some r := rfl
    rw [hdef, h]
  · intro size r h
    rcases hn : net (replaceAll (("large").toList) size url) with _ | resp
    · rw [try_get_artwork, hn] at h
      exact absurd h (by simp)
    · have h' : (if resp.status ≠ 200 then (none : Option ArtResponse)
          else if ¬((resp.contentType.getD []).map Char.toLower = ("image/png").toList ∨
              (resp.contentType.getD []).map Char.toLower = ("image/jpeg").toList ∨
              (resp.contentType.getD []).map Char.toLower = ("image/jpg").toList) then none
          else some resp) = some r := by
        rw [try_get_artwork, hn] at h
        exact h
      by_cases hs : resp.status ≠ 200
      · rw [if_pos hs] at h'
        exact absurd h' (by simp)
      · rw [if_neg hs] at h'
        by_cases hct : (resp.contentType.getD []).map Char.toLower =
            ("image/png").toList ∨
            (resp.contentType.getD []).map Char.toLower = ("image/jpeg").toList ∨
            (resp.contentType.getD []).map Char.toLower = ("image/jpg").toList
        · rw [if_neg (not_not_intro hct)] at h'
          rw [Option.some_inj] at h'
          subst h'
          refine ⟨not_not.mp hs, by simpa using hct⟩
        · rw [if_pos hct] at h'
          exact absurd h' (by simp)
  · rintro ⟨h1, h2⟩
    have hres : get_artwork_response net true url = none := by
      have hdef : get_artwork_response net true url =
          match try_get_artwork net url (("original").toList) with
          | none => try_get_artwork net url (("t500x500").toList)
          | some r => some r := rfl
      rw [hdef, h1, h2]
    exact ⟨hres, by rw [hres]; rfl⟩

/-- C7 witness: a network answering 200 with `image/png` everywhere makes
the original-art path return that response as the artwork. -/
theorem c7_artwork_amended_witness :
    get_artwork_response
        (fun _ => some { status := 200, contentType := some (("image/png").toList),
                         content := [3] })
        true (("large").toList) =
      some { status := 200, contentType := some (("image/png").toList), content := [3] } :=
  (c7_artwork_amended
    (fun _ => some { status := 200, contentType := some (("image/png").toList),
                     content := [3] })
    (("large").toList)).2.1 _ (by decide)

/-- Specification of the single split: when a nonempty pattern occurs in
`s`, the split parts reassemble `s` around the pattern and the left part
contains no occurrence of the pattern — the split happens at the first
occurrence. -/
theorem splitOnceOn_spec (pat : List Char) (hpat : pat ≠ []) :
    ∀ s : List Char, containsSub pat s = true →
      s = (splitOnceOn pat s).1 ++ pat ++ (splitOnceOn pat s).2 ∧
      containsSub pat (splitOnceOn pat s).1 = false := by
  have hbase : containsSub pat [] = false := by
    rw [containsSub]
    cases pat with
    | nil => exact absurd rfl hpat
    | cons a as => rfl
  intro s
  induction s with
  | nil => intro h; exact absurd h (by simp [hbase])
  | cons c t ih =>
    intro h
    by_cases hp : pat.isPrefixOf (c :: t) = true
    · rw [ List.isPrefixOf_iff_prefix] at hp
      obtain ⟨u, hu⟩ := hp
      rw [splitOnceOn, if_pos (by rw [ List.isPrefixOf_iff_prefix]; exact ⟨u, hu⟩)]
      constructor
      · rw [List.nil_append]
        conv_lhs => rw [← hu]
        rw [← hu, List.drop_left]
      · exact hbase
    · have hmem : containsSub pat t = true := by
        rw [containsSub, Bool.or_eq_true] at h
        rcases h with h | h
        · exact absurd h hp
        · exact h
      obtain ⟨ih1, ih2⟩ := ih hmem
      rw [splitOnceOn, if_neg (by simp [hp])]
      constructor
      · simpa using congrArg (fun l => c :: l) ih1
      · rw [containsSub]
        have hnp : pat.isPrefixOf (c :: (splitOnceOn pat t).1) = false := by
          rw [Bool.eq_false_iff]
          intro habs
          rw [ List.isPrefixOf_iff_prefix] at habs
          have hpre : pat <+: (c :: t) := by
            refine habs.trans ?_
            rw [show c :: t = (c :: (splitOnceOn pat t).1) ++ (pat ++ (splitOnceOn pat t).2) by
              simpa using congrArg (fun l => c :: l) ih1]
            exact List.prefix_append _ _
          rw [← List.isPrefixOf_iff_prefix] at hpre
          exact hp hpre
        rw [hnp, ih2]
        rfl

/-- C8: with artist extraction enabled, a title containing a dash glyph is
split at the first occurrence of the first matching glyph — the left part,
trimmed, becomes the artist and the right part, trimmed, the title, with
only one substitution (the right part keeps any further separators, as the
`"A - B - C"` instance shows); the claim's own example yields artist
`Artist`, title `Song Name`; a title without any separator glyph is left
unchanged with the username kept as artist. -/
theorem c8_extract_artist_theorem :
    (∀ u : List Char, extract_artist u (("Artist - Song Name").toList) =
      (("Artist").toList, ("Song Name").toList)) ∧
    (∀ u : List Char, extract_artist u (("A - B - C").toList) =
      (("A").toList, ("B - C").toList)) ∧
    (∀ u t : List Char, dashes.find? (fun dash => containsSub dash t) = none →
      extract_artist u t = (u, t)) ∧
    (∀ u t dash : List Char, dashes.find? (fun d => containsSub d t) = some dash →
      extract_artist u t =
        (pyStrip (splitOnceOn dash t).1, pyStrip (splitOnceOn dash t).2) ∧
      t = (splitOnceOn dash t).1 ++ dash ++ (splitOnceOn dash t).2 ∧
      containsSub dash (splitOnceOn dash t).1 = false) := by
  refine ⟨?_, ?_, ?_, ?_⟩
  · intro u
    have hf : dashes.find? (fun dash => containsSub dash (("Artist - Song Name").toList)) =
        some ((" - ").toList) := by decide
    rw [extract_artist, hf]
    exact (by decide :
      (pyStrip (splitOnceOn ((" - ").toList) (("Artist - Song Name").toList)).1,
       pyStrip (splitOnceOn ((" - ").toList) (("Artist - Song Name").toList)).2) =
      (("Artist").toList, ("Song Name").toList))
  · intro u
    have hf : dashes.find? (fun dash => containsSub dash (("A - B - C").toList)) =
        some ((" - ").toList) := by decide
    rw [extract_artist, hf]
    exact (by decide :
      (pyStrip (splitOnceOn ((" - ").toList) (("A - B - C").toList)).1,
       pyStrip (splitOnceOn ((" - ").toList) (("A - B - C").toList)).2) =
      (("A").toList, ("B - C").toList))
  · intro u t h
    rw [extract_artist, h]
  · intro u t dash h
    have hmem : dash ∈ dashes := List.mem_of_find?_eq_some h
    have hne : dash ≠ [] := by
      have hall : ∀ d ∈ dashes, d ≠ [] := by decide
      exact hall dash hmem
    have hcontains : containsSub dash t = true := by
      have := List.find?_some h
      simpa using this
    obtain ⟨h1, h2⟩ := splitOnceOn_spec dash hne t hcontains
    exact ⟨by rw [extract_artist, h], h1, h2⟩

/-- C8 witness: the no-separator case applied to `xyz` and the
first-occurrence decomposition applied to the claim's own example. -/
theorem c8_extract_artist_theorem_witness :
    extract_artist (("someone").toList) (("xyz").toList) =
      ((("someone").toList), (("xyz").toList)) ∧
    ("Artist - Song Name").toList =
      (splitOnceOn ((" - ").toList) (("Artist - Song Name").toList)).1 ++
        (" - ").toList ++
        (splitOnceOn ((" - ").toList) (("Artist - Song Name").toList)).2 :=
  ⟨c8_extract_artist_theorem.2.2.1 (("someone").toList) (("xyz").toList) (by decide),
   (c8_extract_artist_theorem.2.2.2 (("someone").toList) (("Artist - Song Name").toList)
     ((" - ").toList) (by decide)).2.1⟩

/-- Appending after a newline-terminated prefix splits the lines cleanly. -/
theorem pyLinesAux_append (b : List Char) :
    ∀ (a : List Char) (cur : List Char), a.getLast? = some '\n' →
      pyLinesAux cur (a ++ b) = pyLinesAux cur a ++ pyLinesAux [] b := by
  intro a
  induction a with
  | nil => intro cur h; simp at h
  | cons c t ih =>
    intro cur h
    cases t with
    | nil =>
      have hc : c = '\n' := by simpa using h
      subst hc
      rfl
    | cons c2 t2 =>
      have ht : (c2 :: t2).getLast? = some '\n' := by
        rwa [List.getLast?_cons_cons] at h
      show (if c = '\n' then (cur.reverse ++ ['\n']) :: pyLinesAux [] ((c2 :: t2) ++ b)
            else pyLinesAux (c :: cur) ((c2 :: t2) ++ b)) =
          (if c = '\n' then (cur.reverse ++ ['\n']) :: pyLinesAux [] (c2 :: t2)
            else pyLinesAux (c :: cur) (c2 :: t2)) ++ pyLinesAux [] b
      by_cases hc : c = '\n'
      · rw [if_pos hc, if_pos hc, ih [] ht]
        rfl
      · rw [if_neg hc, if_neg hc, ih (c :: cur) ht]

/-- One newline-terminated line without inner newlines is a single line. -/
theorem pyLinesAux_single :
    ∀ (s : List Char) (cur : List Char), (∀ c ∈ s, c ≠ '\n') →
      pyLinesAux cur (s ++ ['\n']) = [cur.reverse ++ s ++ ['\n']] := by
  intro s
  induction s with
  | nil => intro cur _; simp [pyLinesAux]
  | cons c t ih =>
    intro cur h
    have hc : c ≠ '\n' := h c (by simp)
    show (if c = '\n' then (cur.reverse ++ ['\n']) :: pyLinesAux [] (t ++ ['\n'])
          else pyLinesAux (c :: cur) (t ++ ['\n'])) =
        [cur.reverse ++ (c :: t) ++ ['\n']]
    rw [if_neg hc, ih (c :: cur) (fun x hx => h x (by simp [hx]))]
    simp

/-- Every character of a decimal digit dump is a digit. -/
theorem toDigitsCore_digits :
    ∀ (fuel n : Nat) (ds : List Char), (∀ c ∈ ds, c.isDigit = true) →
      ∀ c ∈ Nat.toDigitsCore 10 fuel n ds, c.isDigit = true := by
  intro fuel
  induction fuel with
  | zero => intro n ds h c hc; exact h c hc
  | succ f ih =>
    intro n ds h c hc
    have hd : (Nat.digitChar (n % 10)).isDigit = true := by
      have hlt : n % 10 < 10 := Nat.mod_lt _ (by norm_num)
      revert hlt
      have hall : ∀ m < 10, (Nat.digitChar m).isDigit = true := by decide
      exact hall (n % 10)
    rw [Nat.toDigitsCore] at hc
    by_cases h0 : n / 10 = 0
    · rw [if_pos h0] at hc
      rcases List.mem_cons.mp hc with rfl | hmem
      · exact hd
      · exact h c hmem
    · rw [if_neg h0] at hc
      refine ih _ _ ?_ c hc
      intro x hx
      rcases List.mem_cons.mp hx with rfl | hmem
      · exact hd
      · exact h x hmem

/-- Every character that `str(i)` produces is a minus sign or a digit. -/
theorem intToStr_chars (i : ℤ) : ∀ c ∈ intToStr i, c = '-' ∨ c.isDigit = true := by
  intro c hc
  rw [intToStr] at hc
  split at hc
  · rcases List.mem_cons.mp hc with rfl | hmem
    · exact Or.inl rfl
    · exact Or.inr (toDigitsCore_digits _ _ [] (by simp) c hmem)
  · exact Or.inr (toDigitsCore_digits _ _ [] (by simp) c hc)

/-- Digits are not Python whitespace. -/
theorem digit_not_ws (c : Char) (h : c.isDigit = true) : isPyWhitespace c = false := by
  have h1 : c ≠ ' ' := fun hh => absurd (hh ▸ h) (by decide)
  have h2 : c ≠ '\t' := fun hh => absurd (hh ▸ h) (by decide)
  have h3 : c ≠ '\n' := fun hh => absurd (hh ▸ h) (by decide)
  have h4 : c ≠ '\r' := fun hh => absurd (hh ▸ h) (by decide)
  have h5 : c ≠ '\x0b' := fun hh => absurd (hh ▸ h) (by decide)
  have h6 : c ≠ '\x0c' := fun hh => absurd (hh ▸ h) (by decide)
  simp [isPyWhitespace, h1, h2, h3, h4, h5, h6]

/-- Characters of `str(i)` are neither whitespace nor newlines. -/
theorem intToStr_not_ws (i : ℤ) :
    ∀ c ∈ intToStr i, isPyWhitespace c = false ∧ c ≠ '\n' := by
  intro c hc
  rcases intToStr_chars i c hc with rfl | hd
  · exact ⟨by decide, by decide⟩
  · refine ⟨digit_not_ws c hd, ?_⟩
    intro hh
    exact absurd (hh ▸ hd) (by decide)

/-- Dropping a false predicate changes nothing. -/
theorem dropWhile_eq_self_of (p : Char → Bool) :
    ∀ s : List Char, (∀ c ∈ s, p c = false) → List.dropWhile p s = s := by
  intro s h
  cases s with
  | nil => rfl
  | cons c t =>
    rw [List.dropWhile_cons, h c (by simp)]
    simp

/-- Stripping a newline-terminated digit run leaves the digit run. -/
theorem pyStrip_append_newline (s : List Char)
    (h : ∀ c ∈ s, isPyWhitespace c = false) :
    pyStrip (s ++ ['\n']) = s := by
  rw [pyStrip, List.reverse_append]
  have h1 : List.dropWhile isPyWhitespace (['\n'].reverse ++ s.reverse) =
      List.dropWhile isPyWhitespace s.reverse := by
    simp [List.dropWhile_cons, isPyWhitespace]
  rw [h1]
  rw [dropWhile_eq_self_of _ s.reverse (fun c hc => h c (List.mem_reverse.mp hc))]
  rw [List.reverse_reverse]
  exact dropWhile_eq_self_of _ s h

/-- C9 counterexample: with an archive configured, processing a track whose
ID 42 is already in the ledger (`is_already_downloaded = true`) appends the
ID again: the ledger ends up holding the line `42` twice, not exactly once as
the claim states. -/
theorem c9_archive_record_counterexample :
    download_track_record true (some (("42\n").toList)) 42 true =
      some (("42\n42\n").toList) ∧
    countId (("42\n42\n").toList) 42 = 2 := by
  constructor
  · decide
  · decide

/-- C9 as amended: the recording step runs regardless of whether the track
was freshly downloaded or already present (its result does not depend on
`is_already_downloaded`), appends exactly one `id` line after the existing
lines (write order preserved), and does not deduplicate: the number of lines
holding the ID always grows by one, so re-processing a present track leaves
the ID twice. -/
theorem c9_archive_record_amended :
    ∀ (content : List Char) (trackId : ℤ) (b1 b2 : Bool),
      (download_track_record true (some content) trackId b1 =
        download_track_record true (some content) trackId b2) ∧
      (download_track_record true (some content) trackId b1 =
        some (content ++ (intToStr trackId ++ ['\n']))) ∧
      (content = [] ∨ content.getLast? = some '\n' →
        pyLines (content ++ (intToStr trackId ++ ['\n'])) =
          pyLines content ++ [intToStr trackId ++ ['\n']] ∧
        countId (content ++ (intToStr trackId ++ ['\n'])) trackId =
          countId content trackId + 1) := by
  intro content trackId b1 b2
  have hnonl : ∀ c ∈ intToStr trackId, c ≠ '\n' :=
    fun c hc => (intToStr_not_ws trackId c hc).2
  have hsingle : pyLines (intToStr trackId ++ ['\n']) = [intToStr trackId ++ ['\n']] := by
    rw [pyLines, pyLinesAux_single _ [] hnonl]
    simp
  have hlines : content = [] ∨ content.getLast? = some '\n' →
      pyLines (content ++ (intToStr trackId ++ ['\n'])) =
        pyLines content ++ [intToStr trackId ++ ['\n']] := by
    rintro (rfl | hlast)
    · simpa using hsingle
    · rw [pyLines, pyLinesAux_append _ content [] hlast]
      rw [← pyLines, ← pyLines, hsingle]
  refine ⟨rfl, by simp [download_track_record, record_download_archive], fun hend => ⟨hlines hend, ?_⟩⟩
  have hstrip : pyStrip (intToStr trackId ++ ['\n']) = intToStr trackId :=
    pyStrip_append_newline _ (fun c hc => (intToStr_not_ws trackId c hc).1)
  rw [countId, hlines hend, List.countP_append, countId]
  simp [hstrip]

/-- C9 witness: appending to a ledger that ends with a newline adds exactly
one matching line. -/
theorem c9_archive_record_amended_witness :
    countId ((("7\n").toList) ++ (intToStr 42 ++ ['\n'])) 42 =
      countId (("7\n").toList) 42 + 1 :=
  ((c9_archive_record_amended (("7\n").toList) 42 true false).2.2
    (Or.inr (by decide))).2
